import Mathlib

/-!
Shallow embedding of the DaanaRx drug service (drug search engine, code
grammar, upsert resolver) together with proofs about the claims of the
specification.

Modelling conventions:
* JS strings are Lean `String`s; all character-level operations are done on
  `String.data` (`List Char`) so that every definition reduces in the kernel.
* JS `Number` values (drug strength, available quantity, parsed dosage
  strength) are modelled as `ℚ`; decimal literals in the dosage grammar are
  read exactly.
* Nullable columns (`ndc_id`, `generic_name`, the joined `drug` of a unit)
  are `Option`s; a JS `TypeError` raised by accessing a method on `null`
  is modelled by `Except JsErr`.
* The relational store is modelled by a `DB` value: two tables as lists (in
  table order, which determines the order rows come back and which rows a
  `limit` keeps) plus two flags modelling a read-side store failure (the
  supabase client then yields `data = null` without throwing).
* SQL `ilike '%p%'` is modelled as case-insensitive substring containment
  (`NULL` columns never match); `.single()` yields a row iff exactly one row
  matches, and `.limit(1).single()` yields the first row if any.
* `Array.prototype.sort` (stable, comparator-based) is modelled by a stable
  insertion sort `sortCmp`; `String.prototype.localeCompare` is an explicit
  comparator parameter `lc` of the search function that uses it.
-/

namespace DaanaRx

/-! ### JS string primitives -/

/-- Is `pre` a prefix of `l`?  (Used to model `String.prototype.includes`.) -/
def leadsList (pre l : List Char) : Bool :=
  match pre, l with
  | [], _ => true
  | _ :: _, [] => false
  | c :: cs, d :: ds => c == d && leadsList cs ds

/-- JS `hay.includes(sub)` on character lists: `sub` occurs contiguously in
`hay`.  Note `hay.includes("") = true` for every `hay`, as in JS. -/
def jsIncludesL (hay sub : List Char) : Bool :=
  match hay with
  | [] => sub.isEmpty
  | c :: t => leadsList sub (c :: t) || jsIncludesL t sub

/-- JS `hay.includes(sub)`. -/
def jsIncludes (hay sub : String) : Bool :=
  jsIncludesL hay.data sub.data

/-- JS `s.toLowerCase()` (ASCII case mapping). -/
def lowerStr (s : String) : String :=
  String.mk (s.data.map Char.toLower)

/-- JS `s.toUpperCase()` (ASCII case mapping). -/
def upperStr (s : String) : String :=
  String.mk (s.data.map Char.toUpper)

/-- JS `s.trim()`: strip leading and trailing whitespace. -/
def jsTrim (s : String) : String :=
  String.mk (((s.data.dropWhile Char.isWhitespace).reverse.dropWhile
    Char.isWhitespace).reverse)

/-- JS `s.padStart(n, c)`. -/
def padStart (s : String) (n : Nat) (c : Char) : String :=
  String.mk (List.replicate (n - s.data.length) c ++ s.data)

/-- JS `s.padEnd(n, c)` on a character list. -/
def padEndL (l : List Char) (n : Nat) (c : Char) : List Char :=
  l ++ List.replicate (n - l.length) c

/-- JS `s.slice(-n)`: the last `n` characters (all of `s` if shorter). -/
def takeRight (s : String) (n : Nat) : String :=
  String.mk (s.data.drop (s.data.length - n))

/-! ### Code grammar: NDC normalization -/

/-- `normalizeNDC` — remove all non-numeric characters
(`ndc.replace(/[^0-9]/g, '')`). -/
def normalizeNDC (ndc : String) : String :=
  String.mk (ndc.data.filter Char.isDigit)

/-! ### Code grammar: lot-code validation -/

/-- The test `/^[A-Z]/.test(lotCode.toUpperCase())`: the first character of
the upper-cased code is an ASCII capital letter. -/
def headIsAZ (s : String) : Bool :=
  match s.data.map Char.toUpper with
  | [] => false
  | c :: _ => decide ('A' ≤ c) && decide (c ≤ 'Z')

/-- `lotCode[1]?.toUpperCase()` is `'L'` or `'R'` (false when there is no
second character, as comparing `undefined` fails in the source). -/
def secondIsLR (s : String) : Bool :=
  match s.data.drop 1 with
  | [] => false
  | c :: _ => c.toUpper == 'L' || c.toUpper == 'R'

/-- `validateLotCode(lotCode, requireLocation)`, clause for clause from the
source: empty string rejected, length must be 1–2, first character A–Z, if
`requireLocation` the length must be 2 with second character L/R, and any
2-character code must have second character L/R. -/
def validateLotCode (lotCode : String) (requireLocation : Bool) : Bool :=
  if lotCode.data.isEmpty then false
  else if lotCode.data.length < 1 || 2 < lotCode.data.length then false
  else if !(headIsAZ lotCode) then false
  else if requireLocation &&
      (!(lotCode.data.length == 2) || !(secondIsLR lotCode)) then false
  else if lotCode.data.length == 2 && !(secondIsLR lotCode) then false
  else true

/-! ### Code grammar: dosage parsing -/

/-- Numeric value of a digit list, most significant first. -/
def natOfDigits (l : List Char) : Nat :=
  l.foldl (fun n c => 10 * n + (c.toNat - 48)) 0

/-- Exact rational value of `<digits>[.<digits>]` (models `parseFloat` on the
number captured by the dosage regexes). -/
def ratOfDigits (ds fs : List Char) : ℚ :=
  mkRat ((natOfDigits ds * 10 ^ fs.length + natOfDigits fs : Nat) : Int)
    (10 ^ fs.length)

/-- Match `\d+(?:\.\d+)?` at the head of `l`; return the value and the rest.
The optional fraction is taken iff a `.` followed by at least one digit
follows the integer digits (regex greediness is deterministic here because
the character classes are disjoint). -/
def parseNum (l : List Char) : Option (ℚ × List Char) :=
  let ds := l.takeWhile Char.isDigit
  let rest := l.dropWhile Char.isDigit
  if ds.isEmpty then none
  else
    match rest with
    | '.' :: r2 =>
      let fs := r2.takeWhile Char.isDigit
      if fs.isEmpty then some (ratOfDigits ds [], rest)
      else some (ratOfDigits ds fs, r2.dropWhile Char.isDigit)
    | _ => some (ratOfDigits ds [], rest)

/-- A character of the primary unit group `[a-zA-Z/]`. -/
def unitChar (c : Char) : Bool :=
  c.isAlpha || c == '/'

/-- The primary dosage grammar `^(\d+(?:\.\d+)?)\s*([a-zA-Z/]+)?$` applied to
the whole (already trimmed) string; an absent unit group yields `"unit"`
(`match[2] || 'unit'`). -/
def primaryParse (l : List Char) : Option (ℚ × String) :=
  match parseNum l with
  | none => none
  | some (v, rest) =>
    let rest2 := rest.dropWhile Char.isWhitespace
    if rest2.isEmpty then some (v, "unit")
    else
      let us := rest2.takeWhile unitChar
      let rest3 := rest2.dropWhile unitChar
      if us.isEmpty then none
      else if rest3.isEmpty then some (v, String.mk us) else none

/-- The fallback dosage grammar `^(\d+(?:\.\d+)?)\s*([a-zA-Z]+)` — anchored at
the start of the string, matching a prefix only (the rest of the text is
ignored). -/
def fallbackParse (l : List Char) : Option (ℚ × String) :=
  match parseNum l with
  | none => none
  | some (v, rest) =>
    let rest2 := rest.dropWhile Char.isWhitespace
    let us := rest2.takeWhile Char.isAlpha
    if us.isEmpty then none else some (v, String.mk us)

/-- Result of `parseDosage`. -/
structure ParsedDosage where
  strength : ℚ
  strengthUnit : String
deriving DecidableEq

/-- `parseDosage(dosage)`: trim, try the primary grammar on the whole string,
then the fallback prefix grammar, else `{0, "unit"}`. -/
def parseDosage (dosage : String) : ParsedDosage :=
  match primaryParse (jsTrim dosage).data with
  | some (v, u) => ⟨v, u⟩
  | none =>
    match fallbackParse (jsTrim dosage).data with
    | some (v, u) => ⟨v, u⟩
    | none => ⟨0, "unit"⟩

/-! ### Code grammar: QR-code generation -/

/-- The local calendar fields of a JS `Date` that `generateQRCode` reads:
`getMonth() + 1`, `getDate()`, `getFullYear()`. -/
structure JsDate where
  month : Nat
  day : Nat
  year : Nat
deriving DecidableEq

/-- Zero-padded `MMDDYY` date string. -/
def dateStr (d : JsDate) : String :=
  padStart (toString d.month) 2 '0' ++ padStart (toString d.day) 2 '0' ++
    takeRight (toString d.year) 2

/-- An ASCII alphanumeric character (`[^a-zA-Z0-9]` is stripped). -/
def alnumChar (c : Char) : Bool :=
  c.isAlpha || c.isDigit

/-- Medication code: strip non-alphanumerics, first 4 characters, upper-case,
right-pad with `'X'` to 4. -/
def medCodeOf (medicationName : String) : String :=
  String.mk (padEndL (((medicationName.data.filter alnumChar).take 4).map
    Char.toUpper) 4 'X')

/-- Dose code: keep digits and dots, take the part before the first `.`,
left-pad with `'0'` to 2, then truncate to 2 characters. -/
def doseCodeOf (dosage : String) : String :=
  let digitsAndDots := dosage.data.filter (fun c => c.isDigit || c == '.')
  let intPart := digitsAndDots.takeWhile (fun c => !(c == '.'))
  String.mk ((List.replicate (2 - intPart.length) '0' ++ intPart).take 2)

/-- `generateQRCode(lotCode, date, medicationName, dosage, sequence?)`:
`{LOT}-{MMDDYY}-{MED4}-{DD}`, with `-{NN}` appended when a positive sequence
number is supplied. -/
def generateQRCode (lotCode : String) (date : JsDate) (medicationName : String)
    (dosage : String) (sequence : Option Int) : String :=
  let baseCode := upperStr lotCode ++ "-" ++ dateStr date ++ "-" ++
    medCodeOf medicationName ++ "-" ++ doseCodeOf dosage
  match sequence with
  | some s => if 0 < s then baseCode ++ "-" ++ padStart (toString s) 2 '0'
              else baseCode
  | none => baseCode

/-! ### Data model and store -/

/-- A catalog row of the `drugs` relation.  `ndc_id` and `generic_name` are
nullable (the migration drops `NOT NULL` on `ndc_id`; `getOrCreateDrug`
stores `null` NDCs). -/
structure Drug where
  drug_id : String
  medication_name : String
  generic_name : Option String
  strength : ℚ
  strength_unit : String
  ndc_id : Option String
  form : String
deriving DecidableEq

/-- An inventory row of the `units` relation with the joined drug (the join
can come back `null`, which the loops skip). -/
structure StockUnit where
  unit_id : String
  clinic_id : String
  available_quantity : ℚ
  drug : Option Drug
deriving DecidableEq

/-- The store: the two relations in table order, plus flags modelling a
read-side failure of each source (supabase then yields `data = null`,
which the engine absorbs). -/
structure DB where
  units : List StockUnit
  drugs : List Drug
  unitsReadFails : Bool
  drugsReadFails : Bool

/-- The `DrugSearchResult` projection returned by the search operations. -/
structure SearchResult where
  drugId : String
  medicationName : String
  genericName : Option String
  strength : ℚ
  strengthUnit : String
  ndcId : Option String
  form : String
  inInventory : Bool
deriving DecidableEq

/-- A JS runtime error (accessing a method on `null`). -/
inductive JsErr where
  | typeError
deriving DecidableEq

/-- Build a `SearchResult` from a drug row and the inventory flag. -/
def toResult (inv : Bool) (d : Drug) : SearchResult :=
  { drugId := d.drug_id
    medicationName := d.medication_name
    genericName := d.generic_name
    strength := d.strength
    strengthUnit := d.strength_unit
    ndcId := d.ndc_id
    form := d.form
    inInventory := inv }

/-- The inventory query both search functions issue: units of the clinic with
`available_quantity > 0`, each projected to its joined drug. -/
def clinicStock (db : DB) (clinicId : String) : List (Option Drug) :=
  (db.units.filter (fun u =>
    decide (u.clinic_id = clinicId) && decide (0 < u.available_quantity))).map
    (fun u => u.drug)

/-- SQL `column ilike '%pat%'` on a nullable column: case-insensitive
substring containment, never matching `NULL`.  (User-supplied `%`/`_`
wildcard characters inside `pat` are not given special meaning.) -/
def ilikeContains (pat : String) (field : Option String) : Bool :=
  match field with
  | none => false
  | some s => jsIncludes (lowerStr s) (lowerStr pat)

/-! ### searchDrugs -/

/-- `normalizeNDC(drug.ndc_id).includes(normalizedNDC)` — throws a
`TypeError` when `ndc_id` is `null`. -/
def invNdcMatch (nq : String) (d : Drug) : Except JsErr Bool :=
  match d.ndc_id with
  | none => .error JsErr.typeError
  | some s => .ok (jsIncludes (normalizeNDC s) nq)

/-- `medication_name.toLowerCase().includes(q) ||
generic_name.toLowerCase().includes(q)` — `||` short-circuits, so the
`TypeError` on a `null` generic name fires only when the medication name
does not match. -/
def invNameMatch (q : String) (d : Drug) : Except JsErr Bool :=
  if jsIncludes (lowerStr d.medication_name) (lowerStr q) then .ok true
  else
    match d.generic_name with
    | none => .error JsErr.typeError
    | some g => .ok (jsIncludes (lowerStr g) (lowerStr q))

/-- The two eagerly-evaluated `const` match flags of the `searchDrugs`
inventory loop, combined with `||`. -/
def invStep (q nq : String) (d : Drug) : Except JsErr Bool :=
  match invNdcMatch nq d with
  | .error e => .error e
  | .ok ndcMatch =>
    match invNameMatch q d with
    | .error e => .error e
    | .ok nameMatch => .ok (ndcMatch || nameMatch)

/-- The inventory loop of `searchDrugs`: skip `null` joins, evaluate the
match (which can throw), and push unseen NDC keys
(`seenNDCs.has(drug.ndc_id)` keys on the raw, possibly `null`, value). -/
def invPhase (q nq : String) :
    List (Option Drug) → List SearchResult → List (Option String) →
    Except JsErr (List SearchResult × List (Option String))
  | [], acc, seen => .ok (acc, seen)
  | none :: rest, acc, seen => invPhase q nq rest acc seen
  | some d :: rest, acc, seen =>
    match invStep q nq d with
    | .error e => .error e
    | .ok m =>
      if m = true ∧ d.ndc_id ∉ seen then
        invPhase q nq rest (acc ++ [toResult true d]) (seen ++ [d.ndc_id])
      else invPhase q nq rest acc seen

/-- The pure projection of one inventory-loop iteration: the result it would
push when the match evaluates to `true` (used to state order preservation). -/
def invProj (q nq : String) (od : Option Drug) : Option SearchResult :=
  match od with
  | none => none
  | some d =>
    match invStep q nq d with
    | .ok true => some (toResult true d)
    | _ => none

/-- The catalog filter of `searchDrugs`:
`ndc_id.ilike.%(normalizedNDC || normalizedQuery)%`, or medication name /
generic name `ilike` the raw query (an empty digits-only form is falsy in
JS, so the raw query is used for the NDC column too). -/
def catMatch (q nq : String) (d : Drug) : Bool :=
  let p1 := if nq = "" then q else nq
  ilikeContains p1 d.ndc_id || ilikeContains q (some d.medication_name) ||
    ilikeContains q d.generic_name

/-- A generic "push if the key is unseen" loop over `x`s that yield an
optional (result, dedup-key) pair; this is the shape of the catalog loop of
`searchDrugs` and of both loops of `searchMedicationsByName`. -/
def pushLoop {α κ : Type} [DecidableEq κ] (f : α → Option (SearchResult × κ)) :
    List α → List SearchResult → List κ → List SearchResult × List κ
  | [], acc, seen => (acc, seen)
  | x :: rest, acc, seen =>
    match f x with
    | none => pushLoop f rest acc seen
    | some (r, k) =>
      if k ∈ seen then pushLoop f rest acc seen
      else pushLoop f rest (acc ++ [r]) (seen ++ [k])

/-- One iteration of the catalog loop of `searchDrugs`: every row is a
candidate, keyed by its raw `ndc_id`. -/
def catStep (d : Drug) : Option (SearchResult × Option String) :=
  some (toResult false d, d.ndc_id)

/-- `searchDrugs(query, clinicId)`: reject short queries, search the clinic
inventory (dedup by NDC, flagged in-inventory), then append unseen catalog
rows (limit 20), returning the first 10 results.  A read failure of either
source contributes no rows; a `TypeError` in the inventory loop aborts. -/
def searchDrugs (db : DB) (query clinicId : String) :
    Except JsErr (List SearchResult) :=
  if (jsTrim query).data.length < 2 then .ok []
  else
    let normalizedQuery := jsTrim query
    let normalizedNDC := normalizeNDC normalizedQuery
    match (if db.unitsReadFails then .ok ([], []) else
        invPhase normalizedQuery normalizedNDC (clinicStock db clinicId) [] []) with
    | .error e => .error e
    | .ok (acc1, seen1) =>
      let p2 :=
        if db.drugsReadFails then (acc1, seen1)
        else pushLoop catStep
          ((db.drugs.filter (fun d => catMatch normalizedQuery normalizedNDC d)).take 20)
          acc1 seen1
      .ok (p2.1.take 10)

/-! ### searchDrugByNDC -/

/-- Exactly-one-row semantics of supabase `.single()` (PostgREST errors, and
`data` is `null`, when zero or several rows match). -/
def lookupSingleRow (p : Drug → Bool) (rows : List Drug) : Option Drug :=
  match rows.filter p with
  | [d] => some d
  | _ => none

/-- `searchDrugByNDC(ndc, clinicId?)`: when a clinic is given, fetch the
*first* in-stock unit of the clinic (`.limit(1).single()` — the query has no
NDC condition) and return it iff its drug's normalized NDC equals the
normalized input; otherwise fall back to an exact catalog match on the raw
NDC string. -/
def searchDrugByNDC (db : DB) (ndc : String) (clinicId : Option String) :
    Except JsErr (Option SearchResult) :=
  let normalizedNDC := normalizeNDC ndc
  let inventoryHit : Except JsErr (Option SearchResult) :=
    match clinicId with
    | none => .ok none
    | some c =>
      if db.unitsReadFails then .ok none
      else
        match (clinicStock db c).head? with
        | none => .ok none
        | some none => .ok none
        | some (some d) =>
          match d.ndc_id with
          | none => .error JsErr.typeError
          | some nid =>
            if normalizeNDC nid = normalizedNDC then .ok (some (toResult true d))
            else .ok none
  match inventoryHit with
  | .error e => .error e
  | .ok (some r) => .ok (some r)
  | .ok none =>
    if db.drugsReadFails then .ok none
    else
      match lookupSingleRow (fun d => decide (d.ndc_id = some ndc)) db.drugs with
      | some d => .ok (some (toResult false d))
      | none => .ok none

/-! ### searchMedicationsByName -/

/-- The deduplication key
`` `${medication_name.toLowerCase()}-${strength}-${strength_unit}` `` of
`searchMedicationsByName`, on a drug row. -/
def medKey (d : Drug) : String :=
  lowerStr d.medication_name ++ "-" ++ toString d.strength ++ "-" ++
    d.strength_unit

/-- The same key read off a result row (the result copies the drug fields
verbatim, so this agrees with `medKey` of the source drug). -/
def medKeyR (r : SearchResult) : String :=
  lowerStr r.medicationName ++ "-" ++ toString r.strength ++ "-" ++
    r.strengthUnit

/-- The name-only inventory match of `searchMedicationsByName` — here the
`null` generic name *is* guarded (`drug.generic_name && …`). -/
def medNameMatch (q : String) (d : Drug) : Bool :=
  jsIncludes (lowerStr d.medication_name) q ||
    (match d.generic_name with
     | none => false
     | some g => jsIncludes (lowerStr g) q)

/-- One iteration of the inventory loop of `searchMedicationsByName`. -/
def medInvStep (q : String) (od : Option Drug) :
    Option (SearchResult × String) :=
  match od with
  | none => none
  | some d => if medNameMatch q d then some (toResult true d, medKey d) else none

/-- The catalog filter of `searchMedicationsByName` (name columns only). -/
def medCatMatch (q : String) (d : Drug) : Bool :=
  ilikeContains q (some d.medication_name) || ilikeContains q d.generic_name

/-- One iteration of the catalog loop of `searchMedicationsByName`. -/
def medCatStep (d : Drug) : Option (SearchResult × String) :=
  some (toResult false d, medKey d)

/-- The sort comparator: inventory entries first, then
`medicationName.localeCompare` (the locale collation is the parameter
`lc`). -/
def medCmp (lc : String → String → Int) (a b : SearchResult) : Int :=
  if a.inInventory && !b.inInventory then -1
  else if !a.inInventory && b.inInventory then 1
  else lc a.medicationName b.medicationName

/-- Insert `x` into `l` before the first element `y` with `cmp x y ≤ 0`. -/
def insertCmp {α : Type} (cmp : α → α → Int) (x : α) : List α → List α
  | [] => [x]
  | y :: ys => if cmp x y ≤ 0 then x :: y :: ys else y :: insertCmp cmp x ys

/-- Stable comparator sort (the ECMAScript `Array.prototype.sort`
contract): elements are kept in original order unless the comparator orders
them strictly. -/
def sortCmp {α : Type} (cmp : α → α → Int) : List α → List α
  | [] => []
  | x :: xs => insertCmp cmp x (sortCmp cmp xs)

/-- The merge performed by `searchMedicationsByName` before sorting: the
inventory loop (skipped on a read failure) followed by the catalog loop over
the first 30 matching rows (skipped on a read failure), sharing the dedup
set. -/
def medMerged (normalizedQuery : String) (db : DB) (clinicId : String) :
    List SearchResult × List String :=
  let p1 := if db.unitsReadFails then ([], [])
    else pushLoop (medInvStep normalizedQuery) (clinicStock db clinicId) [] []
  if db.drugsReadFails then p1
  else pushLoop medCatStep
    ((db.drugs.filter (fun d => medCatMatch normalizedQuery d)).take 30)
    p1.1 p1.2

/-- `searchMedicationsByName(query, clinicId)`: name-only match over both
sources, deduplicated by the (lower-cased name, strength, unit) key, sorted
inventory-first then by name, truncated to 15. -/
def searchMedicationsByName (lc : String → String → Int) (db : DB)
    (query clinicId : String) : List SearchResult :=
  if (jsTrim query).data.length < 2 then []
  else
    (sortCmp (medCmp lc)
      (medMerged (lowerStr (jsTrim query)) db clinicId).1).take 15

/-! ### getOrCreateDrug -/

/-- The argument record of `getOrCreateDrug`. -/
structure DrugInput where
  medicationName : String
  genericName : Option String
  strength : ℚ
  strengthUnit : String
  ndcId : Option String
  form : String

/-- The row `getOrCreateDrug` inserts: generic name defaults to the
medication name when absent or empty (`genericName || medicationName`), NDC
stored as `null` when absent or empty (`ndcId || null`). -/
structure NewDrugRow where
  medication_name : String
  generic_name : String
  strength : ℚ
  strength_unit : String
  ndc_id : Option String
  form : String
deriving DecidableEq

/-- The fields passed to the insert. -/
def newDrugRow (d : DrugInput) : NewDrugRow :=
  { medication_name := d.medicationName
    generic_name :=
      match d.genericName with
      | some g => if g = "" then d.medicationName else g
      | none => d.medicationName
    strength := d.strength
    strength_unit := d.strengthUnit
    ndc_id :=
      match d.ndcId with
      | some n => if n = "" then none else some n
      | none => none
    form := d.form }

/-- Step 1 of `getOrCreateDrug`: exact catalog lookup by the supplied NDC,
skipped entirely when the NDC is absent or empty (JS truthiness of
`drugData.ndcId`). -/
def ndcLookup (db : List Drug) (d : DrugInput) : Option Drug :=
  match d.ndcId with
  | some n =>
    if n = "" then none
    else lookupSingleRow (fun r => decide (r.ndc_id = some n)) db
  | none => none

/-- Step 2 of `getOrCreateDrug`: case-insensitive medication name
(`ilike` with no wildcards) plus exact strength, strength unit and form. -/
def nameLookup (db : List Drug) (d : DrugInput) : Option Drug :=
  lookupSingleRow (fun r =>
    decide (lowerStr r.medication_name = lowerStr d.medicationName) &&
    decide (r.strength = d.strength) &&
    decide (r.strength_unit = d.strengthUnit) &&
    decide (r.form = d.form)) db

/-- `getOrCreateDrug(drugData)`: find by NDC, else find by attributes, else
insert (`ins` models `insertDrug`; its failure message is wrapped in
`Failed to create drug: …` and rethrown). -/
def getOrCreateDrug (db : List Drug) (ins : NewDrugRow → Except String String)
    (d : DrugInput) : Except String String :=
  match ndcLookup db d with
  | some r => .ok r.drug_id
  | none =>
    match nameLookup db d with
    | some r => .ok r.drug_id
    | none =>
      match ins (newDrugRow d) with
      | .ok newId => .ok newId
      | .error msg => .error ("Failed to create drug: " ++ msg)

/-! ### Concrete store contents used by witnesses and counterexamples -/

/-- An in-stock aspirin row (all optional fields present). -/
def dAsp : Drug := ⟨"1", "Aspirin", some "Aspirin", 81, "mg", some "111", "tablet"⟩

/-- A catalog-only row. -/
def dApt : Drug := ⟨"2", "Aspart", some "Insulin", 100, "u", some "222", "vial"⟩

/-- A small store: one in-stock unit, one catalog row. -/
def dbW : DB := ⟨[⟨"u1", "c", 1, some dAsp⟩], [dApt], false, false⟩

/-- A drug whose names contain no `"xy"`. -/
def dZzz : Drug := ⟨"9", "Zzz", some "Zzz", 5, "mg", some "9", "tab"⟩

/-- A store whose only in-stock drug does not name-match the query `"xy"`. -/
def db3 : DB := ⟨[⟨"u3", "c", 1, some dZzz⟩], [], false, false⟩

/-- First in-stock drug of the C1 store (NDC 111). -/
def d111 : Drug := ⟨"a", "DrugA", some "DrugA", 1, "mg", some "111", "tab"⟩

/-- Second in-stock drug of the C1 store (NDC 222). -/
def d222 : Drug := ⟨"b", "DrugB", some "DrugB", 2, "mg", some "2-2-2", "tab"⟩

/-- The second in-stock unit, holding the drug with NDC 222. -/
def u222 : StockUnit := ⟨"u2", "c", 1, some d222⟩

/-- A clinic with two in-stock units; the scanned NDC matches only the
second one. -/
def dbC1 : DB := ⟨[⟨"u1", "c", 1, some d111⟩, u222], [], false, false⟩

/-- An in-stock drug with a `null` NDC (legal per the schema migration and
produced by `getOrCreateDrug`). -/
def dNullNdc : Drug := ⟨"n", "Aspirin", some "Aspirin", 81, "mg", none, "tab"⟩

/-- Store for the null-NDC crash. -/
def dbN1 : DB := ⟨[⟨"u", "c", 1, some dNullNdc⟩], [], false, false⟩

/-- An in-stock drug with a `null` generic name. -/
def dNullGen : Drug := ⟨"g", "Aspirin", none, 81, "mg", some "1", "tab"⟩

/-- Store for the null-generic-name crash. -/
def dbN2 : DB := ⟨[⟨"u", "c", 1, some dNullGen⟩], [], false, false⟩

/-- Two otherwise-distinct catalog rows both lacking an NDC. -/
def dA1 : Drug := ⟨"x1", "Aaa", none, 1, "mg", none, "tab"⟩

/-- Second catalog row lacking an NDC. -/
def dA2 : Drug := ⟨"x2", "Aab", none, 1, "mg", none, "tab"⟩

/-- A store whose catalog has two null-NDC rows matching the query. -/
def db10 : DB := ⟨[], [dA1, dA2], false, false⟩

/-- A trivial collation (every pair compares equal), used to instantiate the
`localeCompare` parameter in witnesses. -/
def lcZero : String → String → Int := fun _ _ => 0

/-- Argument record with no NDC and no generic name. -/
def diPlain : DrugInput := ⟨"Med", none, 5, "mg", none, "tab"⟩

/-! ### Lemmas: the stable comparator sort -/

theorem insertCmp_perm {α : Type} (cmp : α → α → Int) (x : α) (l : List α) :
    List.Perm (insertCmp cmp x l) (x :: l) := by
  induction l with
  | nil => exact List.Perm.refl _
  | cons y ys ih =>
    by_cases h : cmp x y ≤ 0
    · simp [insertCmp, h]
    · simp only [insertCmp, if_neg h]
      exact (ih.cons y).trans (List.Perm.swap x y ys)

theorem sortCmp_perm {α : Type} (cmp : α → α → Int) (l : List α) :
    List.Perm (sortCmp cmp l) l := by
  induction l with
  | nil => exact List.Perm.refl _
  | cons x xs ih =>
    exact (insertCmp_perm cmp x (sortCmp cmp xs)).trans (ih.cons x)

theorem insertCmp_pairwise {α : Type} {cmp : α → α → Int}
    (htot : ∀ a b, cmp a b ≤ 0 ∨ cmp b a ≤ 0)
    (htr : ∀ a b c, cmp a b ≤ 0 → cmp b c ≤ 0 → cmp a c ≤ 0)
    (x : α) {l : List α} (hl : l.Pairwise (fun a b => cmp a b ≤ 0)) :
    (insertCmp cmp x l).Pairwise (fun a b => cmp a b ≤ 0) := by
  induction l with
  | nil => simp [insertCmp]
  | cons y ys ih =>
    rcases List.pairwise_cons.mp hl with ⟨hy, hys⟩
    by_cases h : cmp x y ≤ 0
    · simp only [insertCmp, if_pos h]
      refine List.pairwise_cons.mpr ⟨?_, hl⟩
      intro z hz
      rcases List.mem_cons.mp hz with rfl | hz'
      · exact h
      · exact htr x y z h (hy z hz')
    · simp only [insertCmp, if_neg h]
      refine List.pairwise_cons.mpr ⟨?_, ih hys⟩
      intro z hz
      rcases List.mem_cons.mp ((insertCmp_perm cmp x ys).mem_iff.mp hz) with
        hzx | hz'
      · rw [hzx]
        rcases htot x y with h1 | h2
        · exact absurd h1 h
        · exact h2
      · exact hy z hz'

theorem sortCmp_pairwise {α : Type} {cmp : α → α → Int}
    (htot : ∀ a b, cmp a b ≤ 0 ∨ cmp b a ≤ 0)
    (htr : ∀ a b c, cmp a b ≤ 0 → cmp b c ≤ 0 → cmp a c ≤ 0)
    (l : List α) : (sortCmp cmp l).Pairwise (fun a b => cmp a b ≤ 0) := by
  induction l with
  | nil => simp [sortCmp]
  | cons x xs ih => exact insertCmp_pairwise htot htr x ih

/-! ### Lemmas: the dedup push loops -/

theorem pushLoop_acc {α κ : Type} [DecidableEq κ]
    (f : α → Option (SearchResult × κ)) :
    ∀ (l : List α) (acc : List SearchResult) (seen : List κ),
      ∃ extra, (pushLoop f l acc seen).1 = acc ++ extra ∧
        extra.Sublist (l.filterMap (fun x => (f x).map Prod.fst)) := by
  intro l
  induction l with
  | nil =>
    intro acc seen
    exact ⟨[], by simp [pushLoop], by simp⟩
  | cons x rest ih =>
    intro acc seen
    cases hfx : f x with
    | none =>
      rcases ih acc seen with ⟨extra, h1, h2⟩
      refine ⟨extra, ?_, ?_⟩
      · simpa [pushLoop, hfx] using h1
      · simpa [List.filterMap_cons, hfx] using h2
    | some rk =>
      obtain ⟨r, k⟩ := rk
      by_cases hk : k ∈ seen
      · rcases ih acc seen with ⟨extra, h1, h2⟩
        refine ⟨extra, ?_, ?_⟩
        · simpa [pushLoop, hfx, hk] using h1
        · simp only [List.filterMap_cons, hfx, Option.map_some]
          exact h2.cons r
      · rcases ih (acc ++ [r]) (seen ++ [k]) with ⟨extra, h1, h2⟩
        refine ⟨r :: extra, ?_, ?_⟩
        · simp only [pushLoop, hfx, if_neg hk] at *
          simpa [List.append_assoc] using h1
        · simp only [List.filterMap_cons, hfx, Option.map_some]
          exact h2.cons₂ r

theorem pushLoop_pairwise {α κ : Type} [DecidableEq κ]
    (f : α → Option (SearchResult × κ)) (g : SearchResult → κ)
    (hkey : ∀ x r k, f x = some (r, k) → g r = k) :
    ∀ (l : List α) (acc : List SearchResult) (seen : List κ),
      (∀ r ∈ acc, g r ∈ seen) →
      acc.Pairwise (fun a b => g a ≠ g b) →
      (∀ r ∈ (pushLoop f l acc seen).1, g r ∈ (pushLoop f l acc seen).2) ∧
      (pushLoop f l acc seen).1.Pairwise (fun a b => g a ≠ g b) := by
  intro l
  induction l with
  | nil =>
    intro acc seen hmem hpw
    exact ⟨by simpa [pushLoop] using hmem, by simpa [pushLoop] using hpw⟩
  | cons x rest ih =>
    intro acc seen hmem hpw
    cases hfx : f x with
    | none =>
      have := ih acc seen hmem hpw
      simpa [pushLoop, hfx] using this
    | some rk =>
      obtain ⟨r, k⟩ := rk
      by_cases hk : k ∈ seen
      · have := ih acc seen hmem hpw
        simpa [pushLoop, hfx, hk] using this
      · have hmem' : ∀ r' ∈ acc ++ [r], g r' ∈ seen ++ [k] := by
          intro r' hr'
          rcases List.mem_append.mp hr' with h | h
          · exact List.mem_append.mpr (Or.inl (hmem r' h))
          · rcases List.mem_singleton.mp h with rfl
            have := hkey x r' k hfx
            exact List.mem_append.mpr (Or.inr (by simp [this]))
        have hpw' : (acc ++ [r]).Pairwise (fun a b => g a ≠ g b) := by
          refine List.pairwise_append.mpr ⟨hpw, by simp, ?_⟩
          intro a ha b hb
          rcases List.mem_singleton.mp hb with rfl
          have hga : g a ∈ seen := hmem a ha
          have hgb : g b = k := hkey x b k hfx
          intro hcontra
          rw [hcontra, hgb] at hga
          exact hk hga
        have := ih (acc ++ [r]) (seen ++ [k]) hmem' hpw'
        simpa [pushLoop, hfx, hk] using this

/-! ### Lemmas: the inventory phase of searchDrugs -/

theorem invPhase_acc (q nq : String) :
    ∀ (l : List (Option Drug)) (acc : List SearchResult)
      (seen : List (Option String)) (out),
      invPhase q nq l acc seen = .ok out →
      ∃ extra, out.1 = acc ++ extra ∧
        extra.Sublist (l.filterMap (invProj q nq)) := by
  intro l
  induction l with
  | nil =>
    intro acc seen out h
    simp only [invPhase] at h
    cases h
    exact ⟨[], by simp, by simp⟩
  | cons od rest ih =>
    intro acc seen out h
    cases od with
    | none =>
      simp only [invPhase] at h
      rcases ih acc seen out h with ⟨extra, h1, h2⟩
      exact ⟨extra, h1, by simpa [List.filterMap_cons, invProj] using h2⟩
    | some d =>
      simp only [invPhase] at h
      cases hstep : invStep q nq d with
      | error e => rw [hstep] at h; cases h
      | ok m =>
        simp only [hstep] at h
        cases m with
        | true =>
          have hproj : invProj q nq (some d) = some (toResult true d) := by
            simp [invProj, hstep]
          by_cases hk : d.ndc_id ∈ seen
          · rw [if_neg (by simp [hk])] at h
            rcases ih acc seen out h with ⟨extra, h1, h2⟩
            refine ⟨extra, h1, ?_⟩
            rw [List.filterMap_cons, hproj]
            exact h2.cons _
          · rw [if_pos ⟨rfl, hk⟩] at h
            rcases ih (acc ++ [toResult true d]) (seen ++ [d.ndc_id]) out h
              with ⟨extra, h1, h2⟩
            refine ⟨toResult true d :: extra, ?_, ?_⟩
            · simpa [List.append_assoc] using h1
            · rw [List.filterMap_cons, hproj]
              exact h2.cons₂ _
        | false =>
          rw [if_neg (by simp)] at h
          rcases ih acc seen out h with ⟨extra, h1, h2⟩
          refine ⟨extra, h1, ?_⟩
          have hproj : invProj q nq (some d) = none := by
            simp [invProj, hstep]
          rw [List.filterMap_cons, hproj]
          exact h2

theorem invPhase_steps (q nq : String) :
    ∀ (l : List (Option Drug)) (acc : List SearchResult)
      (seen : List (Option String)) (out),
      invPhase q nq l acc seen = .ok out →
      ∀ od ∈ l, ∀ d, od = some d → ∃ m, invStep q nq d = .ok m := by
  intro l
  induction l with
  | nil => intro acc seen out _ od hod; cases hod
  | cons od0 rest ih =>
    intro acc seen out h od hod d hd
    cases od0 with
    | none =>
      simp only [invPhase] at h
      rcases List.mem_cons.mp hod with rfl | hmem
      · cases hd
      · exact ih acc seen out h od hmem d hd
    | some d0 =>
      simp only [invPhase] at h
      cases hstep : invStep q nq d0 with
      | error e => rw [hstep] at h; cases h
      | ok m =>
        simp only [hstep] at h
        rcases List.mem_cons.mp hod with rfl | hmem
        · cases hd; exact ⟨m, hstep⟩
        · by_cases hcond : m = true ∧ d0.ndc_id ∉ seen
          · rw [if_pos hcond] at h
            exact ih _ _ out h od hmem d hd
          · rw [if_neg hcond] at h
            exact ih _ _ out h od hmem d hd

theorem invPhase_seen_mono (q nq : String) :
    ∀ (l : List (Option Drug)) (acc : List SearchResult)
      (seen : List (Option String)) (out),
      invPhase q nq l acc seen = .ok out →
      ∀ k ∈ seen, k ∈ out.2 := by
  intro l
  induction l with
  | nil =>
    intro acc seen out h
    simp only [invPhase] at h
    cases h
    exact fun k hk => hk
  | cons od rest ih =>
    intro acc seen out h k hk
    cases od with
    | none =>
      simp only [invPhase] at h
      exact ih acc seen out h k hk
    | some d =>
      simp only [invPhase] at h
      cases hstep : invStep q nq d with
      | error e => rw [hstep] at h; cases h
      | ok m =>
        simp only [hstep] at h
        by_cases hcond : m = true ∧ d.ndc_id ∉ seen
        · rw [if_pos hcond] at h
          exact ih _ _ out h k (List.mem_append.mpr (Or.inl hk))
        · rw [if_neg hcond] at h
          exact ih _ _ out h k hk

theorem invPhase_mem_seen (q nq : String) :
    ∀ (l : List (Option Drug)) (acc : List SearchResult)
      (seen : List (Option String)) (out),
      invPhase q nq l acc seen = .ok out →
      ∀ d : Drug, some d ∈ l → invStep q nq d = .ok true →
      d.ndc_id ∈ out.2 := by
  intro l
  induction l with
  | nil => intro acc seen out _ d hd; cases hd
  | cons od rest ih =>
    intro acc seen out h d hd htrue
    cases od with
    | none =>
      simp only [invPhase] at h
      rcases List.mem_cons.mp hd with hd0 | hmem
      · cases hd0
      · exact ih acc seen out h d hmem htrue
    | some d0 =>
      simp only [invPhase] at h
      cases hstep : invStep q nq d0 with
      | error e => rw [hstep] at h; cases h
      | ok m =>
        simp only [hstep] at h
        rcases List.mem_cons.mp hd with hd0 | hmem
        · have hdd : d0 = d := by injection hd0.symm
          subst hdd
          rw [htrue] at hstep
          have hm : m = true := by injection hstep.symm
          subst hm
          by_cases hk : d0.ndc_id ∈ seen
          · rw [if_neg (by simp [hk])] at h
            exact invPhase_seen_mono q nq rest _ _ out h _ hk
          · rw [if_pos ⟨rfl, hk⟩] at h
            exact invPhase_seen_mono q nq rest _ _ out h _
              (List.mem_append.mpr (Or.inr (by simp)))
        · by_cases hcond : m = true ∧ d0.ndc_id ∉ seen
          · rw [if_pos hcond] at h
            exact ih _ _ out h d hmem htrue
          · rw [if_neg hcond] at h
            exact ih _ _ out h d hmem htrue

theorem invPhase_keys (q nq : String) :
    ∀ (l : List (Option Drug)) (acc : List SearchResult)
      (seen : List (Option String)) (out),
      invPhase q nq l acc seen = .ok out →
      (∀ k ∈ seen, ∃ r ∈ acc, r.ndcId = k) →
      ∀ k ∈ out.2, ∃ r ∈ out.1, r.ndcId = k := by
  intro l
  induction l with
  | nil =>
    intro acc seen out h hinv
    simp only [invPhase] at h
    cases h
    exact hinv
  | cons od rest ih =>
    intro acc seen out h hinv
    cases od with
    | none =>
      simp only [invPhase] at h
      exact ih acc seen out h hinv
    | some d =>
      simp only [invPhase] at h
      cases hstep : invStep q nq d with
      | error e => rw [hstep] at h; cases h
      | ok m =>
        simp only [hstep] at h
        by_cases hcond : m = true ∧ d.ndc_id ∉ seen
        · rw [if_pos hcond] at h
          refine ih _ _ out h ?_
          intro k hk
          rcases List.mem_append.mp hk with hk1 | hk2
          · rcases hinv k hk1 with ⟨r, hr, hrk⟩
            exact ⟨r, List.mem_append.mpr (Or.inl hr), hrk⟩
          · rcases List.mem_singleton.mp hk2 with rfl
            exact ⟨toResult true d, List.mem_append.mpr (Or.inr (by simp)), rfl⟩
        · rw [if_neg hcond] at h
          exact ih _ _ out h hinv

theorem invPhase_pairwise (q nq : String) :
    ∀ (l : List (Option Drug)) (acc : List SearchResult)
      (seen : List (Option String)) (out),
      invPhase q nq l acc seen = .ok out →
      (∀ r ∈ acc, r.ndcId ∈ seen) →
      acc.Pairwise (fun a b => a.ndcId ≠ b.ndcId) →
      (∀ r ∈ out.1, r.ndcId ∈ out.2) ∧
      out.1.Pairwise (fun a b => a.ndcId ≠ b.ndcId) := by
  intro l
  induction l with
  | nil =>
    intro acc seen out h hmem hpw
    simp only [invPhase] at h
    cases h
    exact ⟨hmem, hpw⟩
  | cons od rest ih =>
    intro acc seen out h hmem hpw
    cases od with
    | none =>
      simp only [invPhase] at h
      exact ih acc seen out h hmem hpw
    | some d =>
      simp only [invPhase] at h
      cases hstep : invStep q nq d with
      | error e => rw [hstep] at h; cases h
      | ok m =>
        simp only [hstep] at h
        by_cases hcond : m = true ∧ d.ndc_id ∉ seen
        · rw [if_pos hcond] at h
          refine ih _ _ out h ?_ ?_
          · intro r hr
            rcases List.mem_append.mp hr with h1 | h2
            · exact List.mem_append.mpr (Or.inl (hmem r h1))
            · rcases List.mem_singleton.mp h2 with rfl
              exact List.mem_append.mpr (Or.inr (by simp [toResult]))
          · refine List.pairwise_append.mpr ⟨hpw, by simp, ?_⟩
            intro a ha b hb
            rcases List.mem_singleton.mp hb with rfl
            have hga : a.ndcId ∈ seen := hmem a ha
            intro hcontra
            rw [hcontra] at hga
            exact hcond.2 hga
        · rw [if_neg hcond] at h
          exact ih _ _ out h hmem hpw

/-! ### Small helper lemmas -/

theorem jsIncludesL_nil (hay : List Char) : jsIncludesL hay [] = true := by
  cases hay <;> simp [jsIncludesL, leadsList]

theorem jsIncludes_empty (s : String) : jsIncludes s "" = true :=
  jsIncludesL_nil s.data

theorem invProj_inventory {q nq : String} {od : Option Drug}
    {r : SearchResult} (h : invProj q nq od = some r) : r.inInventory = true := by
  cases od with
  | none => simp [invProj] at h
  | some d =>
    simp only [invProj] at h
    split at h
    · cases h; rfl
    · cases h

theorem filterMap_catStep (l : List Drug) :
    l.filterMap (fun x => (catStep x).map Prod.fst) = l.map (toResult false) := by
  induction l with
  | nil => rfl
  | cons d t ih =>
    rw [List.filterMap_cons, List.map_cons, ← ih]
    rfl

theorem pairwise_ndcne_filter_none {l : List SearchResult}
    (h : l.Pairwise (fun a b => a.ndcId ≠ b.ndcId)) :
    (l.filter (fun r => r.ndcId.isNone)).length ≤ 1 := by
  induction l with
  | nil => simp
  | cons a t ih =>
    rcases List.pairwise_cons.mp h with ⟨ha, ht⟩
    by_cases hn : a.ndcId.isNone = true
    · have hnil : t.filter (fun r => r.ndcId.isNone) = [] := by
        refine List.filter_eq_nil_iff.mpr ?_
        intro b hb hbn
        exact ha b hb (by
          rw [Option.isNone_iff_eq_none.mp hn,
            Option.isNone_iff_eq_none.mp hbn])
      simp [List.filter_cons, hn, hnil]
    · simpa [List.filter_cons, hn] using ih ht

/-! ### Lemmas: assembling searchDrugs -/

theorem searchDrugs_cases {db : DB} {q c : String} {rs : List SearchResult}
    (h : searchDrugs db q c = .ok rs) :
    ((jsTrim q).data.length < 2 ∧ rs = []) ∨
    (¬ (jsTrim q).data.length < 2 ∧
      ∃ acc1 seen1,
        (if db.unitsReadFails = true then Except.ok ([], [])
          else invPhase (jsTrim q) (normalizeNDC (jsTrim q))
            (clinicStock db c) [] []) = .ok (acc1, seen1) ∧
        rs = (if db.drugsReadFails = true then (acc1, seen1)
          else pushLoop catStep
            ((db.drugs.filter (fun d =>
              catMatch (jsTrim q) (normalizeNDC (jsTrim q)) d)).take 20)
            acc1 seen1).1.take 10) := by
  simp only [searchDrugs] at h
  split at h
  · left
    refine ⟨by assumption, ?_⟩
    cases h
    rfl
  · right
    refine ⟨by assumption, ?_⟩
    split at h
    · cases h
    · next acc1 seen1 heq =>
      cases h
      exact ⟨acc1, seen1, heq, rfl⟩

theorem searchDrugs_pairwise_ndc {db : DB} {q c : String}
    {rs : List SearchResult} (h : searchDrugs db q c = .ok rs) :
    rs.Pairwise (fun a b => a.ndcId ≠ b.ndcId) := by
  rcases searchDrugs_cases h with ⟨_, rfl⟩ | ⟨_, acc1, seen1, heq, hrs⟩
  · exact List.Pairwise.nil
  · have hbase : (∀ r ∈ acc1, r.ndcId ∈ seen1) ∧
        acc1.Pairwise (fun a b => a.ndcId ≠ b.ndcId) := by
      by_cases hf : db.unitsReadFails = true
      · rw [if_pos hf] at heq
        cases heq
        exact ⟨by simp, List.Pairwise.nil⟩
      · rw [if_neg hf] at heq
        exact invPhase_pairwise _ _ _ _ _ _ heq (by simp) List.Pairwise.nil
    subst hrs
    by_cases hdf : db.drugsReadFails = true
    · rw [if_pos hdf]
      exact hbase.2.sublist (List.take_sublist _ _)
    · rw [if_neg hdf]
      have := pushLoop_pairwise catStep (fun r => r.ndcId)
        (by intro x r k hx; cases hx; rfl)
        ((db.drugs.filter (fun d =>
          catMatch (jsTrim q) (normalizeNDC (jsTrim q)) d)).take 20)
        acc1 seen1 hbase.1 hbase.2
      exact this.2.sublist (List.take_sublist _ _)

theorem searchDrugs_decomp {db : DB} {q c : String} {rs : List SearchResult}
    (h : searchDrugs db q c = .ok rs) :
    ∃ inv cat : List SearchResult,
      rs = (inv ++ cat).take 10 ∧
      (∀ r ∈ inv, r.inInventory = true) ∧
      (∀ r ∈ cat, r.inInventory = false) ∧
      inv.Sublist ((clinicStock db c).filterMap
        (invProj (jsTrim q) (normalizeNDC (jsTrim q)))) ∧
      cat.Sublist (((db.drugs.filter (fun d =>
        catMatch (jsTrim q) (normalizeNDC (jsTrim q)) d)).take 20).map
        (toResult false)) := by
  rcases searchDrugs_cases h with ⟨_, rfl⟩ | ⟨_, acc1, seen1, heq, hrs⟩
  · exact ⟨[], [], by simp, by simp, by simp, List.nil_sublist _,
      List.nil_sublist _⟩
  · have hinv : acc1.Sublist ((clinicStock db c).filterMap
        (invProj (jsTrim q) (normalizeNDC (jsTrim q)))) := by
      by_cases hf : db.unitsReadFails = true
      · rw [if_pos hf] at heq
        cases heq
        exact List.nil_sublist _
      · rw [if_neg hf] at heq
        rcases invPhase_acc _ _ _ _ _ _ heq with ⟨extra, h1, h2⟩
        have hae : acc1 = extra := by simpa using h1
        rw [hae]
        exact h2
    have hinvflag : ∀ r ∈ acc1, r.inInventory = true := by
      intro r hr
      have := hinv.subset hr
      rcases List.mem_filterMap.mp this with ⟨od, _, hod⟩
      exact invProj_inventory hod
    subst hrs
    by_cases hdf : db.drugsReadFails = true
    · rw [if_pos hdf]
      exact ⟨acc1, [], by simp, hinvflag, by simp, hinv, List.nil_sublist _⟩
    · rw [if_neg hdf]
      rcases @pushLoop_acc Drug (Option String) _ catStep
        ((db.drugs.filter (fun d =>
          catMatch (jsTrim q) (normalizeNDC (jsTrim q)) d)).take 20)
        acc1 seen1 with ⟨extra, h1, h2⟩
      rw [filterMap_catStep] at h2
      refine ⟨acc1, extra, by rw [h1], hinvflag, ?_, hinv, h2⟩
      intro r hr
      have := h2.subset hr
      rcases List.mem_map.mp this with ⟨d, _, rfl⟩
      rfl

/-! ### Lemmas: inclusion of in-stock drugs on digit-free queries -/

theorem searchDrugs_includes_stock {db : DB} {q c : String}
    {rs : List SearchResult} (h : searchDrugs db q c = .ok rs)
    (hlen : 2 ≤ (jsTrim q).data.length)
    (hnd : normalizeNDC (jsTrim q) = "")
    (hf : db.unitsReadFails = false)
    {u : StockUnit} (hu : u ∈ db.units) (hc : u.clinic_id = c)
    (hq : 0 < u.available_quantity) {d : Drug} (hd : u.drug = some d)
    {s : String} (hs : d.ndc_id = some s) :
    (∃ r ∈ rs, r.ndcId = d.ndc_id) ∨ rs.length = 10 := by
  rcases searchDrugs_cases h with ⟨hlt, _⟩ | ⟨_, acc1, seen1, heq, hrs⟩
  · omega
  · rw [if_neg (by simp [hf])] at heq
    have hmem : some d ∈ clinicStock db c := by
      refine List.mem_map.mpr ⟨u, ?_, hd⟩
      refine List.mem_filter.mpr ⟨hu, ?_⟩
      simp [hc, hq]
    rcases invPhase_steps _ _ _ _ _ _ heq (some d) hmem d rfl with ⟨m, hm⟩
    have hnm : invNdcMatch (normalizeNDC (jsTrim q)) d = .ok true := by
      rw [hnd]
      simp [invNdcMatch, hs, jsIncludes_empty]
    have hmtrue : invStep (jsTrim q) (normalizeNDC (jsTrim q)) d = .ok true := by
      cases hnmm : invNameMatch (jsTrim q) d with
      | error e =>
        simp only [invStep, hnm, hnmm] at hm
        cases hm
      | ok nm =>
        simp only [invStep, hnm, hnmm]
        simp
    have hseen := invPhase_mem_seen _ _ _ _ _ _ heq d hmem hmtrue
    have hkeys := invPhase_keys _ _ _ _ _ _ heq (by simp) _ hseen
    rcases hkeys with ⟨r, hr, hrk⟩
    subst hrs
    have hrp2 : r ∈ (if db.drugsReadFails = true then (acc1, seen1)
        else pushLoop catStep
          ((db.drugs.filter (fun d' =>
            catMatch (jsTrim q) (normalizeNDC (jsTrim q)) d')).take 20)
          acc1 seen1).1 := by
      by_cases hdf : db.drugsReadFails = true
      · rw [if_pos hdf]
        exact hr
      · rw [if_neg hdf]
        rcases @pushLoop_acc Drug (Option String) _ catStep
          ((db.drugs.filter (fun d' =>
            catMatch (jsTrim q) (normalizeNDC (jsTrim q)) d')).take 20)
          acc1 seen1 with ⟨extra, h1, _⟩
        rw [h1]
        exact List.mem_append.mpr (Or.inl hr)
    generalize hL : (if db.drugsReadFails = true then (acc1, seen1)
        else pushLoop catStep
          ((db.drugs.filter (fun d' =>
            catMatch (jsTrim q) (normalizeNDC (jsTrim q)) d')).take 20)
          acc1 seen1).1 = L at hrp2 ⊢
    by_cases hlen10 : L.length ≤ 10
    · rw [List.take_of_length_le hlen10]
      exact Or.inl ⟨r, hrp2, hrk⟩
    · right
      rw [List.length_take]
      omega

/-! ### Lemmas: the medication-name search -/

theorem medCmp_le_iff (lc : String → String → Int) (a b : SearchResult) :
    medCmp lc a b ≤ 0 ↔
      ((a.inInventory = true ∧ b.inInventory = false) ∨
       (a.inInventory = b.inInventory ∧
        lc a.medicationName b.medicationName ≤ 0)) := by
  cases ha : a.inInventory <;> cases hb : b.inInventory <;>
    simp [medCmp, ha, hb]

theorem medCmp_total (lc : String → String → Int)
    (htot : ∀ a b, lc a b ≤ 0 ∨ lc b a ≤ 0) :
    ∀ a b, medCmp lc a b ≤ 0 ∨ medCmp lc b a ≤ 0 := by
  intro a b
  cases ha : a.inInventory <;> cases hb : b.inInventory
  · rcases htot a.medicationName b.medicationName with h | h
    · exact Or.inl ((medCmp_le_iff lc a b).mpr (Or.inr ⟨ha.trans hb.symm, h⟩))
    · exact Or.inr ((medCmp_le_iff lc b a).mpr (Or.inr ⟨hb.trans ha.symm, h⟩))
  · exact Or.inr ((medCmp_le_iff lc b a).mpr (Or.inl ⟨hb, ha⟩))
  · exact Or.inl ((medCmp_le_iff lc a b).mpr (Or.inl ⟨ha, hb⟩))
  · rcases htot a.medicationName b.medicationName with h | h
    · exact Or.inl ((medCmp_le_iff lc a b).mpr (Or.inr ⟨ha.trans hb.symm, h⟩))
    · exact Or.inr ((medCmp_le_iff lc b a).mpr (Or.inr ⟨hb.trans ha.symm, h⟩))

theorem medCmp_trans (lc : String → String → Int)
    (htr : ∀ a b c, lc a b ≤ 0 → lc b c ≤ 0 → lc a c ≤ 0) :
    ∀ a b c, medCmp lc a b ≤ 0 → medCmp lc b c ≤ 0 → medCmp lc a c ≤ 0 := by
  intro a b c h1 h2
  rw [medCmp_le_iff] at h1 h2 ⊢
  rcases h1 with ⟨ha, hb⟩ | ⟨hab, hl1⟩ <;>
    rcases h2 with ⟨hb2, hc⟩ | ⟨hbc, hl2⟩
  · rw [hb] at hb2
    cases hb2
  · exact Or.inl ⟨ha, hbc ▸ hb⟩
  · exact Or.inl ⟨hab.trans hb2, hc⟩
  · exact Or.inr ⟨hab.trans hbc, htr _ _ _ hl1 hl2⟩

theorem medMerged_pairwise (q' : String) (db : DB) (c : String) :
    (∀ r ∈ (medMerged q' db c).1, medKeyR r ∈ (medMerged q' db c).2) ∧
    (medMerged q' db c).1.Pairwise (fun a b => medKeyR a ≠ medKeyR b) := by
  have hkeyInv : ∀ x r k, medInvStep q' x = some (r, k) → medKeyR r = k := by
    intro x r k hx
    cases x with
    | none => cases hx
    | some d =>
      simp only [medInvStep] at hx
      split at hx
      · cases hx
        rfl
      · cases hx
  have hkeyCat : ∀ (x : Drug) r k, medCatStep x = some (r, k) →
      medKeyR r = k := by
    intro x r k hx
    cases hx
    rfl
  have hp1 : (∀ r ∈ (if db.unitsReadFails = true then
        (([], []) : List SearchResult × List String)
        else pushLoop (medInvStep q') (clinicStock db c) [] []).1,
      medKeyR r ∈ (if db.unitsReadFails = true then
        (([], []) : List SearchResult × List String)
        else pushLoop (medInvStep q') (clinicStock db c) [] []).2) ∧
      (if db.unitsReadFails = true then
        (([], []) : List SearchResult × List String)
        else pushLoop (medInvStep q') (clinicStock db c) [] []).1.Pairwise
        (fun a b => medKeyR a ≠ medKeyR b) := by
    by_cases hf : db.unitsReadFails = true
    · rw [if_pos hf]
      exact ⟨by simp, List.Pairwise.nil⟩
    · rw [if_neg hf]
      exact pushLoop_pairwise _ medKeyR hkeyInv _ [] [] (by simp)
        List.Pairwise.nil
  by_cases hdf : db.drugsReadFails = true
  · simp only [medMerged, if_pos hdf]
    exact hp1
  · simp only [medMerged, if_neg hdf]
    exact pushLoop_pairwise _ medKeyR hkeyCat _ _ _ hp1.1 hp1.2

theorem searchMeds_pairwise_key (lc : String → String → Int) (db : DB)
    (q c : String) :
    (searchMedicationsByName lc db q c).Pairwise
      (fun a b => medKeyR a ≠ medKeyR b) := by
  by_cases hshort : (jsTrim q).data.length < 2
  · simp only [searchMedicationsByName, if_pos hshort]
    exact List.Pairwise.nil
  · simp only [searchMedicationsByName, if_neg hshort]
    have hperm := sortCmp_perm (medCmp lc)
      (medMerged (lowerStr (jsTrim q)) db c).1
    have hpw := (medMerged_pairwise (lowerStr (jsTrim q)) db c).2
    have hsorted : (sortCmp (medCmp lc)
        (medMerged (lowerStr (jsTrim q)) db c).1).Pairwise
        (fun a b => medKeyR a ≠ medKeyR b) :=
      (hperm.pairwise_iff (fun hab => Ne.symm hab)).mpr hpw
    exact hsorted.sublist (List.take_sublist _ _)

theorem searchMeds_sorted (lc : String → String → Int)
    (htot : ∀ a b, lc a b ≤ 0 ∨ lc b a ≤ 0)
    (htr : ∀ a b c, lc a b ≤ 0 → lc b c ≤ 0 → lc a c ≤ 0)
    (db : DB) (q c : String) :
    (searchMedicationsByName lc db q c).Pairwise
      (fun a b => medCmp lc a b ≤ 0) := by
  by_cases hshort : (jsTrim q).data.length < 2
  · simp only [searchMedicationsByName, if_pos hshort]
    exact List.Pairwise.nil
  · simp only [searchMedicationsByName, if_neg hshort]
    exact (sortCmp_pairwise (medCmp_total lc htot) (medCmp_trans lc htr)
      _).sublist (List.take_sublist _ _)

/-! ### Lemmas: dosage parsing and lot-code validation -/

theorem parseDosage_no_leading_digit {s : String} {c : Char}
    (hhead : (jsTrim s).data.head? = some c) (hdig : c.isDigit = false) :
    parseDosage s = ⟨0, "unit"⟩ := by
  have hnum : parseNum (jsTrim s).data = none := by
    cases hl : (jsTrim s).data with
    | nil => rw [hl] at hhead; cases hhead
    | cons c0 t =>
      rw [hl] at hhead
      simp only [List.head?] at hhead
      have hc0 : c0 = c := by injection hhead
      subst hc0
      simp [parseNum, List.takeWhile_cons, hdig]
  simp [parseDosage, primaryParse, fallbackParse, hnum]

theorem validateLotCode_two_char (c1 c2 : Char) (b : Bool)
    (h : validateLotCode (String.mk [c1, c2]) b = true) :
    c2.toUpper = 'L' ∨ c2.toUpper = 'R' := by
  by_cases hlr : c2.toUpper = 'L' ∨ c2.toUpper = 'R'
  · exact hlr
  · exfalso
    push_neg at hlr
    have hsec : secondIsLR (String.mk [c1, c2]) = false := by
      simp [secondIsLR, hlr.1, hlr.2]
    simp [validateLotCode, hsec] at h

/-! ### Helper: pairwise from a pointwise property -/

theorem pairwise_of_mem {α : Type} {R : α → α → Prop} :
    ∀ {l : List α}, (∀ a ∈ l, ∀ b ∈ l, R a b) → l.Pairwise R := by
  intro l
  induction l with
  | nil => intro _; exact List.Pairwise.nil
  | cons a t ih =>
    intro h
    refine List.pairwise_cons.mpr ⟨?_, ih ?_⟩
    · intro b hb
      exact h a (by simp) b (by simp [hb])
    · intro x hx y hy
      exact h x (by simp [hx]) y (by simp [hy])

/-! ### Claim theorems -/

/-- C1: the claim says `searchDrugByNDC` returns the inventory match whenever
the clinic has *any* in-stock unit whose drug's normalized NDC equals the
normalized input.  The code instead fetches only the first in-stock unit of
the clinic (the query has no NDC condition and `limit(1)`): here the clinic
holds a matching in-stock unit (`u222`), yet the call returns `none` because
the first unit does not match and the catalog is empty.  This contradicts the
function's own documentation ("check if clinic has it in inventory"; "search
for drug by exact NDC code, used for barcode scanning"). -/
theorem C1_searchDrugByNDC_misses_matching_stock :
    (u222 ∈ dbC1.units ∧ u222.clinic_id = "c" ∧
      0 < u222.available_quantity ∧ u222.drug = some d222 ∧
      ∃ s, d222.ndc_id = some s ∧ normalizeNDC s = normalizeNDC "222") ∧
    searchDrugByNDC dbC1 "222" (some "c") = .ok none :=
  ⟨⟨by decide, rfl, by decide, rfl, "2-2-2", rfl, by decide⟩, rfl⟩

/-- C2 counterexample: the claim says the fallback grammar extracts the first
number-followed-by-letters pair occurring *anywhere* in the text, so that
`parseDosage "dose: 10mg"` would give strength 10 and unit `"mg"`.  The
fallback regex is anchored at the start of the trimmed string, so this input
falls through to the default `{0, "unit"}`. -/
theorem C2_fallback_not_anywhere :
    parseDosage "dose: 10mg" = ⟨0, "unit"⟩ ∧
    parseDosage "dose: 10mg" ≠ ⟨10, "mg"⟩ :=
  ⟨rfl, by decide⟩

/-- C2 amended: when the primary grammar fails, the fallback matches a
number-then-letters pair only as a *prefix* of the trimmed text (the regex is
anchored); in particular a trimmed input that does not start with a digit
always yields the default `{0, "unit"}`, while `"10mg/5ml"` still yields the
first pair `{10, "mg"}`. -/
theorem C2_fallback_prefix_only :
    (∀ (s : String) (c : Char), (jsTrim s).data.head? = some c →
      c.isDigit = false → parseDosage s = ⟨0, "unit"⟩) ∧
    parseDosage "10mg/5ml" = ⟨10, "mg"⟩ ∧
    parseDosage "dose: 10mg" = ⟨0, "unit"⟩ :=
  ⟨fun _ _ h1 h2 => parseDosage_no_leading_digit h1 h2, by decide, rfl⟩

/-- C2 witness: the amended fallback statement applied at the concrete input
`"x5"`, whose trimmed head `'x'` is not a digit. -/
theorem C2_fallback_prefix_only_witness :
    parseDosage "x5" = ⟨0, "unit"⟩ :=
  C2_fallback_prefix_only.1 "x5" 'x' (by decide) (by decide)

/-- C3 counterexample: the claim says a digit-free query of length ≥ 2
includes an inventory drug only if a name contains the query.  For the query
`"xy"` the digits-only form is empty, `includes("")` is true for every
normalized NDC, and the in-stock drug `dZzz` is returned although neither of
its names contains `"xy"`. -/
theorem C3_name_filter_bypassed :
    searchDrugs db3 "xy" "c" = .ok [toResult true dZzz] ∧
    jsIncludes (lowerStr dZzz.medication_name) (lowerStr (jsTrim "xy")) =
      false ∧
    dZzz.generic_name = some "Zzz" ∧
    jsIncludes (lowerStr "Zzz") (lowerStr (jsTrim "xy")) = false :=
  ⟨rfl, by decide, rfl, by decide⟩

/-- C3 amended: for a digit-free query of length ≥ 2 the digits-only form is
the empty string, and empty-substring containment holds for every NDC, so
(absent an inventory read failure) *every* in-stock drug of the clinic with a
non-null NDC passes the match regardless of its names: it can be missing
from the result only through NDC deduplication inside the returned entries
or through the 10-entry truncation, never through the name filter. -/
theorem C3_digit_free_query_matches_every_ndc :
    ∀ (db : DB) (q c : String) (rs : List SearchResult),
      searchDrugs db q c = .ok rs →
      2 ≤ (jsTrim q).data.length →
      normalizeNDC (jsTrim q) = "" →
      db.unitsReadFails = false →
      ∀ u ∈ db.units, u.clinic_id = c → 0 < u.available_quantity →
      ∀ d : Drug, u.drug = some d → ∀ s : String, d.ndc_id = some s →
      (∃ r ∈ rs, r.ndcId = d.ndc_id) ∨ rs.length = 10 :=
  fun _ _ _ _ h h2 h3 h4 _ hu hc hq _ hd _ hs =>
    searchDrugs_includes_stock h h2 h3 h4 hu hc hq hd hs

/-- C3 witness: the amended statement applied to the concrete store `db3`
and query `"xy"`: the non-matching-by-name drug `dZzz` is in the result. -/
theorem C3_digit_free_query_matches_every_ndc_witness :
    (∃ r ∈ [toResult true dZzz], r.ndcId = dZzz.ndc_id) ∨
      ([toResult true dZzz] : List SearchResult).length = 10 :=
  C3_digit_free_query_matches_every_ndc db3 "xy" "c" [toResult true dZzz]
    rfl (by decide) (by decide) rfl ⟨"u3", "c", 1, some dZzz⟩ (by decide)
    rfl (by decide) dZzz rfl "9" rfl

/-- C4: the claim says `searchDrugs` completes on inventories whose drugs
have a null NDC or null generic name, as the data model allows (the
migration drops `NOT NULL` on `ndc_id` and `getOrCreateDrug` stores null
NDCs; `searchMedicationsByName` guards the null generic name).  The code
instead calls `normalizeNDC(drug.ndc_id)` and
`generic_name.toLowerCase()` unguarded and throws a `TypeError` on both
stores below. -/
theorem C4_searchDrugs_raises_on_null_fields :
    searchDrugs dbN1 "as" "c" = .error JsErr.typeError ∧
    dNullNdc.ndc_id = none ∧
    searchDrugs dbN2 "zz" "c" = .error JsErr.typeError ∧
    dNullGen.generic_name = none :=
  ⟨rfl, rfl, rfl, rfl⟩

/-- C5: deduplication invariants.  Every result list of `searchDrugs` has
pairwise distinct (possibly null) NDC values, and every result list of
`searchMedicationsByName` has pairwise distinct (medication name, strength,
strength unit) triples, for all store contents, queries and collations. -/
theorem C5_dedup_invariants :
    (∀ (db : DB) (q c : String) (rs : List SearchResult),
      searchDrugs db q c = .ok rs →
      rs.Pairwise (fun a b => a.ndcId ≠ b.ndcId)) ∧
    (∀ (lc : String → String → Int) (db : DB) (q c : String),
      (searchMedicationsByName lc db q c).Pairwise (fun a b =>
        ¬(a.medicationName = b.medicationName ∧ a.strength = b.strength ∧
          a.strengthUnit = b.strengthUnit))) := by
  constructor
  · intro db q c rs h
    exact searchDrugs_pairwise_ndc h
  · intro lc db q c
    refine (searchMeds_pairwise_key lc db q c).imp ?_
    intro a b hk hab
    exact hk (by simp [medKeyR, hab.1, hab.2.1, hab.2.2])

/-- C5 witness: the `searchDrugs` invariant applied to the concrete store
`dbW` and query `"as"`, whose result holds one inventory and one catalog
entry. -/
theorem C5_dedup_invariants_witness :
    ([toResult true dAsp, toResult false dApt] : List SearchResult).Pairwise
      (fun a b => a.ndcId ≠ b.ndcId) :=
  C5_dedup_invariants.1 dbW "as" "c" [toResult true dAsp, toResult false dApt]
    rfl

/-- C6: ordering invariants.  `searchDrugs` returns at most 10 entries,
grouped inventory-first, and each group preserves the insertion order of its
source (the inventory entries form a sublist of the per-unit match stream in
unit order, the catalog entries a sublist of the first 20 matching catalog
rows in table order).  `searchMedicationsByName` returns at most 15 entries
and, for any total-preorder collation, is sorted inventory-first and by
medication name within each inventory-status group. -/
theorem C6_ordering_invariants :
    (∀ (db : DB) (q c : String) (rs : List SearchResult),
      searchDrugs db q c = .ok rs →
      rs.length ≤ 10 ∧
      rs.Pairwise (fun a b => b.inInventory = true → a.inInventory = true) ∧
      ∃ inv cat : List SearchResult,
        rs = (inv ++ cat).take 10 ∧
        (∀ r ∈ inv, r.inInventory = true) ∧
        (∀ r ∈ cat, r.inInventory = false) ∧
        inv.Sublist ((clinicStock db c).filterMap
          (invProj (jsTrim q) (normalizeNDC (jsTrim q)))) ∧
        cat.Sublist (((db.drugs.filter (fun d =>
          catMatch (jsTrim q) (normalizeNDC (jsTrim q)) d)).take 20).map
          (toResult false))) ∧
    (∀ lc : String → String → Int,
      (∀ a b, lc a b ≤ 0 ∨ lc b a ≤ 0) →
      (∀ a b c, lc a b ≤ 0 → lc b c ≤ 0 → lc a c ≤ 0) →
      ∀ (db : DB) (q c : String),
        (searchMedicationsByName lc db q c).length ≤ 15 ∧
        (searchMedicationsByName lc db q c).Pairwise (fun a b =>
          (b.inInventory = true → a.inInventory = true) ∧
          (a.inInventory = b.inInventory →
            lc a.medicationName b.medicationName ≤ 0))) := by
  constructor
  · intro db q c rs h
    rcases searchDrugs_decomp h with ⟨inv, cat, hrs, hi, hcf, hsl1, hsl2⟩
    have hgroup : (inv ++ cat).Pairwise
        (fun a b => b.inInventory = true → a.inInventory = true) := by
      refine List.pairwise_append.mpr ⟨?_, ?_, ?_⟩
      · exact pairwise_of_mem (fun a ha b _ _ => hi a ha)
      · refine pairwise_of_mem (fun a _ b hb hbt => ?_)
        rw [hcf b hb] at hbt
        cases hbt
      · intro a ha b _
        exact fun _ => hi a ha
    refine ⟨?_, ?_, inv, cat, hrs, hi, hcf, hsl1, hsl2⟩
    · rw [hrs]
      exact List.length_take_le _ _
    · rw [hrs]
      exact hgroup.sublist (List.take_sublist _ _)
  · intro lc htot htr db q c
    constructor
    · by_cases hshort : (jsTrim q).data.length < 2
      · simp only [searchMedicationsByName, if_pos hshort]
        simp
      · simp only [searchMedicationsByName, if_neg hshort]
        exact List.length_take_le _ _
    · refine (searchMeds_sorted lc htot htr db q c).imp ?_
      intro a b hab
      constructor
      · intro hbt
        rcases (medCmp_le_iff lc a b).mp hab with ⟨h1, _⟩ | ⟨h1, _⟩
        · exact h1
        · exact h1.trans hbt
      · intro heqflag
        rcases (medCmp_le_iff lc a b).mp hab with ⟨h1, h2⟩ | ⟨_, h2⟩
        · rw [heqflag, h2] at h1
          cases h1
        · exact h2

/-- C6 witness: both ordering invariants applied at the concrete store `dbW`,
query `"as"` and the trivial collation `lcZero`. -/
theorem C6_ordering_invariants_witness :
    (([toResult true dAsp, toResult false dApt] :
        List SearchResult).length ≤ 10 ∧
      ([toResult true dAsp, toResult false dApt] :
        List SearchResult).Pairwise
        (fun a b => b.inInventory = true → a.inInventory = true) ∧
      ∃ inv cat : List SearchResult,
        [toResult true dAsp, toResult false dApt] = (inv ++ cat).take 10 ∧
        (∀ r ∈ inv, r.inInventory = true) ∧
        (∀ r ∈ cat, r.inInventory = false) ∧
        inv.Sublist ((clinicStock dbW "c").filterMap
          (invProj (jsTrim "as") (normalizeNDC (jsTrim "as")))) ∧
        cat.Sublist (((dbW.drugs.filter (fun d =>
          catMatch (jsTrim "as") (normalizeNDC (jsTrim "as")) d)).take 20).map
          (toResult false))) ∧
    ((searchMedicationsByName lcZero dbW "as" "c").length ≤ 15 ∧
      (searchMedicationsByName lcZero dbW "as" "c").Pairwise (fun a b =>
        (b.inInventory = true → a.inInventory = true) ∧
        (a.inInventory = b.inInventory →
          lcZero a.medicationName b.medicationName ≤ 0))) :=
  ⟨C6_ordering_invariants.1 dbW "as" "c"
      [toResult true dAsp, toResult false dApt] rfl,
    C6_ordering_invariants.2 lcZero (fun _ _ => Or.inl (le_refl 0))
      (fun _ _ _ _ _ => le_refl 0) dbW "as" "c"⟩

/-- C7: `validateLotCode` accepts `"A"` without location, accepts `"AL"`,
rejects `"AX"`, rejects `"A"` when a location is required, rejects the empty
code for either flag, and in general a 2-character code validates only when
its second character upper-cases to `'L'` or `'R'`, for either flag. -/
theorem C7_validateLotCode_spec :
    validateLotCode "A" false = true ∧
    validateLotCode "AL" false = true ∧
    validateLotCode "AX" false = false ∧
    validateLotCode "A" true = false ∧
    (∀ b : Bool, validateLotCode "" b = false) ∧
    (∀ (c1 c2 : Char) (b : Bool),
      validateLotCode (String.mk [c1, c2]) b = true →
      c2.toUpper = 'L' ∨ c2.toUpper = 'R') :=
  ⟨rfl, rfl, rfl, rfl, fun b => by cases b <;> rfl, validateLotCode_two_char⟩

/-- C7 witness: the general 2-character clause applied at the concrete code
`"AL"` with `requireLocation = false`. -/
theorem C7_validateLotCode_spec_witness :
    'L'.toUpper = 'L' ∨ 'L'.toUpper = 'R' :=
  C7_validateLotCode_spec.2.2.2.2.2 'A' 'L' false (by decide)

/-- C8: `generateQRCode` produces `"BL-020526-AMLO-05"` for lot `"BL"`,
date 2026-02-05, medication `"Amlodipine"`, dosage `"5mg"`; appends the
zero-padded sequence exactly when it is positive; pads a short medication
code with `'X'`; and the dose code is the integer part of the stripped
digits, zero-padded to 2 and truncated to 2, so dosages ≥ 100 are lossy
(`"105mg"` encodes as `"10"`). -/
theorem C8_generateQRCode_spec :
    generateQRCode "BL" ⟨2, 5, 2026⟩ "Amlodipine" "5mg" none =
      "BL-020526-AMLO-05" ∧
    generateQRCode "BL" ⟨2, 5, 2026⟩ "Amlodipine" "5mg" (some 2) =
      "BL-020526-AMLO-05-02" ∧
    (∀ (lot : String) (dt : JsDate) (med dos : String) (sq : Int), 0 < sq →
      generateQRCode lot dt med dos (some sq) =
        generateQRCode lot dt med dos none ++ "-" ++
          padStart (toString sq) 2 '0') ∧
    (∀ (lot : String) (dt : JsDate) (med dos : String) (sq : Int), sq ≤ 0 →
      generateQRCode lot dt med dos (some sq) =
        generateQRCode lot dt med dos none) ∧
    doseCodeOf "105mg" = "10" ∧
    doseCodeOf "5mg" = "05" ∧
    generateQRCode "BL" ⟨2, 5, 2026⟩ "ASA" "81mg" none =
      "BL-020526-ASAX-81" := by
  refine ⟨rfl, rfl, ?_, ?_, rfl, rfl, rfl⟩
  · intro lot dt med dos sq h
    simp only [generateQRCode]
    rw [if_pos h]
  · intro lot dt med dos sq h
    simp only [generateQRCode]
    rw [if_neg (by omega)]

/-- C8 witness: the positive-sequence clause applied at the concrete
sequence 7. -/
theorem C8_generateQRCode_spec_witness :
    generateQRCode "BL" ⟨2, 5, 2026⟩ "Amlodipine" "5mg" (some 7) =
      generateQRCode "BL" ⟨2, 5, 2026⟩ "Amlodipine" "5mg" none ++ "-" ++
        padStart (toString (7 : Int)) 2 '0' :=
  C8_generateQRCode_spec.2.2.1 "BL" ⟨2, 5, 2026⟩ "Amlodipine" "5mg" 7
    (by decide)

/-- C9: `getOrCreateDrug` fails exactly when both lookups miss and the final
insert fails, carrying the store's message wrapped in
`Failed to create drug: …`; otherwise it returns an identifier with the
priority NDC match, then attribute match, then fresh insert, whose row
defaults the generic name to the medication name when absent. -/
theorem C9_getOrCreateDrug_spec :
    ∀ (db : List Drug) (ins : NewDrugRow → Except String String)
      (d : DrugInput),
      ((∃ msg, getOrCreateDrug db ins d = .error msg) ↔
        (ndcLookup db d = none ∧ nameLookup db d = none ∧
          ∃ msg, ins (newDrugRow d) = .error msg)) ∧
      (∀ r, ndcLookup db d = some r →
        getOrCreateDrug db ins d = .ok r.drug_id) ∧
      (ndcLookup db d = none → ∀ r, nameLookup db d = some r →
        getOrCreateDrug db ins d = .ok r.drug_id) ∧
      (ndcLookup db d = none → nameLookup db d = none →
        ∀ msg, ins (newDrugRow d) = .error msg →
          getOrCreateDrug db ins d =
            .error ("Failed to create drug: " ++ msg)) ∧
      (ndcLookup db d = none → nameLookup db d = none →
        ∀ newId, ins (newDrugRow d) = .ok newId →
          getOrCreateDrug db ins d = .ok newId) ∧
      (d.genericName = none →
        (newDrugRow d).generic_name = d.medicationName) := by
  intro db ins d
  refine ⟨⟨?_, ?_⟩, ?_, ?_, ?_, ?_, ?_⟩
  · rintro ⟨msg, hmsg⟩
    cases hn : ndcLookup db d with
    | some r => simp [getOrCreateDrug, hn] at hmsg
    | none =>
      cases hm : nameLookup db d with
      | some r => simp [getOrCreateDrug, hn, hm] at hmsg
      | none =>
        cases hi : ins (newDrugRow d) with
        | ok newId => simp [getOrCreateDrug, hn, hm, hi] at hmsg
        | error m => exact ⟨rfl, rfl, m, rfl⟩
  · rintro ⟨hn, hm, msg, hi⟩
    exact ⟨"Failed to create drug: " ++ msg,
      by simp [getOrCreateDrug, hn, hm, hi]⟩
  · intro r hr
    simp [getOrCreateDrug, hr]
  · intro hn r hm
    simp [getOrCreateDrug, hn, hm]
  · intro hn hm msg hi
    simp [getOrCreateDrug, hn, hm, hi]
  · intro hn hm newId hi
    simp [getOrCreateDrug, hn, hm, hi]
  · intro h
    simp [newDrugRow, h]

/-- C9 witness: with an empty catalog and an insert that fails with message
`"boom"`, the call propagates `Failed to create drug: boom`. -/
theorem C9_getOrCreateDrug_spec_witness :
    getOrCreateDrug [] (fun _ => .error "boom") diPlain =
      .error ("Failed to create drug: " ++ "boom") :=
  (C9_getOrCreateDrug_spec [] (fun _ => .error "boom") diPlain).2.2.2.1
    rfl rfl "boom" rfl

/-- C10: in every result list `searchDrugs` returns, at most one entry has a
null NDC, because the dedup set keys on the raw `ndc_id` value and `null` is
a single key. -/
theorem C10_at_most_one_null_ndc :
    ∀ (db : DB) (q c : String) (rs : List SearchResult),
      searchDrugs db q c = .ok rs →
      (rs.filter (fun r => r.ndcId.isNone)).length ≤ 1 :=
  fun _ _ _ _ h => pairwise_ndcne_filter_none (searchDrugs_pairwise_ndc h)

/-- C10 witness: the store `db10` has two distinct null-NDC catalog rows
matching the query, and only the first survives. -/
theorem C10_at_most_one_null_ndc_witness :
    (([toResult false dA1] : List SearchResult).filter
      (fun r => r.ndcId.isNone)).length ≤ 1 :=
  C10_at_most_one_null_ndc db10 "aa" "c" [toResult false dA1] rfl

end DaanaRx
